import Mathlib

/-!
Verification of `mozsysteminfo/resourcemonitor.py` (`SystemResourceMonitor`).

The Python class is embedded shallowly:
* floats used for timestamps and cpu percentages become `ℚ`;
* io / memory counters become `ℤ`;
* a raised Python exception becomes `Except PyErr`;
* an object attribute that may not have been created yet becomes an
  `Option` field of the `Monitor` structure (reading `none` is the
  embedded `AttributeError`);
* the stream of entries that `stop()` drains from the pipe becomes an
  explicit `List Entry` argument of `stop`.
-/

set_option autoImplicit false

namespace ResourceMonitor

/-- Python exceptions that the embedded code can raise. -/
inductive PyErr where
  | assertionError
  | indexError
  | attributeError
  | keyError
  deriving DecidableEq, Repr

/-- `assert b` in Python: raises `AssertionError` when `b` is false. -/
def pyAssert (b : Bool) : Except PyErr Unit :=
  if b then .ok () else .error .assertionError

/-- Reading a list element by index, Python style: `IndexError` when out of range. -/
def listGet {α : Type} (l : List α) (i : Nat) : Except PyErr α :=
  match l.get? i with
  | some x => .ok x
  | none => .error .indexError

/-- Reading an object attribute that may not exist: `AttributeError` when absent. -/
def getAttr {α : Type} : Option α → Except PyErr α
  | some x => .ok x
  | none => .error .attributeError

/-- The namedtuple `SystemResourceUsage(start, end, cpu, io, virt, swap)`.
The Python field `end` is called `stop` here (`end` is a Lean keyword). -/
structure SystemResourceUsage where
  start : ℚ
  stop : ℚ
  cpu : List ℚ
  io : List ℤ
  virt : List ℤ
  swap : List ℤ
  deriving DecidableEq, Repr

/-- The state of a `SystemResourceMonitor` instance.  The five data
attributes `time`/`cpu`/`io`/`virt`/`swap` and the two cached lengths
`_cpu_len`/`_io_len` are `Option`s because `__init__` returns before
creating the latter when psutil is unavailable, and the former only come
into existence inside `stop()`. -/
structure Monitor where
  psutil : Bool
  cpu_len : Option Nat := none
  io_len : Option Nat := none
  start_time : Option ℚ := none
  end_time : Option ℚ := none
  events : List (ℚ × String) := []
  phases : List (String × ℚ × ℚ) := []
  active_phases : List (String × ℚ) := []
  running : Bool := false
  stopped : Bool := false
  time : Option (List ℚ) := none
  cpu : Option (List (List ℚ)) := none
  io : Option (List (List ℤ)) := none
  virt : Option (List (List ℤ)) := none
  swap : Option (List (List ℤ)) := none
  deriving DecidableEq, Repr

/-- `__init__(poll_interval)`: when psutil is importable the probe calls
fix `_cpu_len` and `_io_len`; otherwise the constructor returns early and
those attributes never exist. -/
def Monitor.init (psutilAvailable : Bool) (ncpu nio : Nat) : Monitor :=
  if psutilAvailable then
    { psutil := true, cpu_len := some ncpu, io_len := some nio }
  else
    { psutil := false }

/-- `start()`: a no-op without psutil, otherwise flips `_running`. -/
def Monitor.start (m : Monitor) : Monitor :=
  if m.psutil then { m with running := true } else m

/-- One `(key, value)` pair received over the pipe from the sampling
process.  `_collect` only ever sends these five data kinds plus the
terminal `('done', None)` sentinel. -/
inductive Entry where
  | time (t : ℚ)
  | io (d : List ℤ)
  | virt (v : List ℤ)
  | swap (s : List ℤ)
  | cpu (c : List ℚ)
  | done
  deriving DecidableEq, Repr

/-- The five lists rebuilt by `stop()`'s drain loop, plus the `done` flag. -/
structure DrainState where
  time : List ℚ := []
  cpu : List (List ℚ) := []
  io : List (List ℤ) := []
  virt : List (List ℤ) := []
  swap : List (List ℤ) := []
  done : Bool := false
  deriving DecidableEq, Repr

/-- One iteration of the drain loop body in `stop()`. -/
def recvEntry (st : DrainState) : Entry → DrainState
  | .time t => { st with time := st.time ++ [t] }
  | .io d => { st with io := st.io ++ [d] }
  | .virt v => { st with virt := st.virt ++ [v] }
  | .swap s => { st with swap := st.swap ++ [s] }
  | .cpu c => { st with cpu := st.cpu ++ [c] }
  | .done => { st with done := true }

/-- The whole drain loop: `while self._rx_pipe.poll(1): ...` folded over
the entries that arrive before the per-receive timeout fires. -/
def drain (received : List Entry) : DrainState :=
  received.foldl recvEntry {}

/-- `stop()`.  `received` is the sequence of entries the drain loop gets
off the pipe before its 1-second `poll` times out; whether the `'done'`
sentinel is among them is exactly the `done` flag checked by
`assert done`.  After the length-reconciliation step the code does
`self.start_time = self.time[0]`, an `IndexError` when no time samples
exist. -/
def Monitor.stop (m : Monitor) (received : List Entry) : Except PyErr Monitor :=
  if ¬ m.psutil then .ok { m with stopped := true } else do
    pyAssert m.running
    pyAssert (!m.stopped)
    let m₁ : Monitor := { m with running := false, stopped := true }
    let st := drain received
    pyAssert st.done
    let lmin := min st.cpu.length (min st.io.length
      (min st.virt.length (min st.swap.length st.time.length)))
    let lmax := max st.cpu.length (max st.io.length
      (max st.virt.length (max st.swap.length st.time.length)))
    -- source lines 187-193; note line 191 reads the already-truncated
    -- `self.io`, not `self.virt`: `self.virt = self.io[0:l]`
    let cpuL := if lmin ≠ lmax then st.cpu.take lmin else st.cpu
    let ioL := if lmin ≠ lmax then st.io.take lmin else st.io
    let virtL := if lmin ≠ lmax then ioL.take lmin else st.virt
    let swapL := if lmin ≠ lmax then st.swap.take lmin else st.swap
    let timeL := if lmin ≠ lmax then st.time.take lmin else st.time
    let t0 ← listGet timeL 0
    let tEnd ← listGet timeL (timeL.length - 1)
    .ok { m₁ with
      cpu := some cpuL, io := some ioL, virt := some virtL,
      swap := some swapL, time := some timeL,
      start_time := some t0, end_time := some tEnd }

/-- `record_event(name)`. -/
def Monitor.record_event (m : Monitor) (now : ℚ) (name : String) : Monitor :=
  { m with events := m.events ++ [(now, name)] }

/-- Python `dict`/`OrderedDict` key lookup on an association list. -/
def findKey {α : Type} : List (String × α) → String → Option α
  | [], _ => none
  | (k', v) :: rest, k => if k' = k then some v else findKey rest k

/-- `begin_phase(name)`: `assert name not in self._active_phases`, then
store the phase start time. -/
def Monitor.begin_phase (m : Monitor) (name : String) (now : ℚ) :
    Except PyErr Monitor := do
  pyAssert (findKey m.active_phases name).isNone
  .ok { m with active_phases := m.active_phases ++ [(name, now)] }

/-- `OrderedDict` assignment `self.phases[name] = phase`: update in place
when the key exists, append otherwise. -/
def phasesStore (l : List (String × ℚ × ℚ)) (k : String) (v : ℚ × ℚ) :
    List (String × ℚ × ℚ) :=
  if (findKey l k).isSome then
    l.map (fun p => if p.1 = k then (k, v) else p)
  else
    l ++ [(k, v)]

/-- `finish_phase(name)`: `assert name in self._active_phases`, record the
phase interval, delete the active entry, return the elapsed duration. -/
def Monitor.finish_phase (m : Monitor) (name : String) (now : ℚ) :
    Except PyErr (ℚ × Monitor) :=
  match findKey m.active_phases name with
  | none => .error .assertionError
  | some t₀ =>
    .ok (now - t₀,
      { m with
        phases := phasesStore m.phases name (t₀, now),
        active_phases := m.active_phases.filter (fun p => p.1 ≠ name) })

/-- The `@contextmanager def phase(name)` generator wrapping a `with`
block.  `body` is how the wrapped block exits: `none` for a normal exit
(including an early `return` from the enclosing function), `some e` when
the block raises `e`.  The generator body is `begin_phase(name); yield;
finish_phase(name)` with no `try`/`finally`: an exception thrown into the
`yield` propagates and the line after it never runs.  The result is the
monitor state after the block exits together with the propagated
exception, if any. -/
def Monitor.phaseBlock (m : Monitor) (name : String) (t₁ t₂ : ℚ)
    (body : Option PyErr) : Monitor × Option PyErr :=
  match m.begin_phase name t₁ with
  | .error e => (m, some e)
  | .ok m₁ =>
    match body with
    | some e => (m₁, some e)
    | none =>
      match m₁.finish_phase name t₂ with
      | .error e => (m₁, some e)
      | .ok (_, m₂) => (m₂, none)

/-- The `for i, entry_time in enumerate(self.time)` loop of
`range_usage`, carrying the running index `i` and the `last` timestamp.
`continue` skips entries before `start`, `break` ends the loop past
`stop`, and each yielded `SystemResourceUsage` reads the four data lists
at the current index. -/
def rangeLoop (cpuL : List (List ℚ)) (ioL virtL swapL : List (List ℤ))
    (a b : ℚ) : Nat → ℚ → List ℚ → Except PyErr (List SystemResourceUsage)
  | _, _, [] => .ok []
  | i, last, t :: rest =>
    if t < a then rangeLoop cpuL ioL virtL swapL a b (i + 1) last rest
    else if b < t then .ok []
    else do
      let c ← listGet cpuL i
      let d ← listGet ioL i
      let v ← listGet virtL i
      let s ← listGet swapL i
      let ws ← rangeLoop cpuL ioL virtL swapL a b (i + 1) t rest
      .ok (⟨last, t, c, d, v, s⟩ :: ws)

/-- `if start is None: start = self.time[0]`. -/
def startDefault (timeL : List ℚ) : Option ℚ → Except PyErr ℚ
  | some s => .ok s
  | none => listGet timeL 0

/-- `if end is None: end = self.time[-1]` (`IndexError` on an empty list). -/
def stopDefault (timeL : List ℚ) : Option ℚ → Except PyErr ℚ
  | some e => .ok e
  | none => listGet timeL (timeL.length - 1)

/-- `range_usage(start, end)`, fully consumed.  A generator that has not
been started yet runs no code, so the early `return` for a monitor that
is not stopped yields the empty sequence; otherwise the defaulting of the
bounds and `last = self.time[0]` read `self.time` before the loop. -/
def Monitor.range_usage (m : Monitor) (start stop : Option ℚ) :
    Except PyErr (List SystemResourceUsage) :=
  if ¬ m.stopped then .ok [] else do
    let timeL ← getAttr m.time
    let a ← startDefault timeL start
    let b ← stopDefault timeL stop
    let last₀ ← listGet timeL 0
    let cpuL ← getAttr m.cpu
    let ioL ← getAttr m.io
    let virtL ← getAttr m.virt
    let swapL ← getAttr m.swap
    rangeLoop cpuL ioL virtL swapL a b 0 last₀ timeL

/-- `phase_usage(phase)`: `assert self._stopped`, then look the phase up
(`KeyError` when absent) and delegate to `range_usage`. -/
def Monitor.phase_usage (m : Monitor) (phase : String) :
    Except PyErr (List SystemResourceUsage) := do
  pyAssert m.stopped
  match findKey m.phases phase with
  | none => .error .keyError
  | some (t₀, t₁) => m.range_usage (some t₀) (some t₁)

/-- Result of `aggregate_cpu`: `None`, a per-core list, or one scalar. -/
inductive CpuAgg where
  | absent
  | perCore (l : List ℚ)
  | scalar (q : ℚ)
  deriving DecidableEq, Repr

/-- The inner loop `for i, v in enumerate(usage.cpu): cpu[i].append(v)`:
appends each coordinate of one sample to the corresponding bucket,
`IndexError` when the sample is longer than the bucket list. -/
def appendSample (buckets : List (List ℚ)) (sample : List ℚ) :
    Except PyErr (List (List ℚ)) :=
  match sample, buckets with
  | [], b => .ok b
  | _ :: _, [] => .error .indexError
  | v :: vs, x :: xs => (appendSample xs vs).map (fun r => (x ++ [v]) :: r)

/-- `aggregate_cpu(start, end, phase, per_cpu)`. -/
def Monitor.aggregate_cpu (m : Monitor) (start stop : Option ℚ)
    (phase : Option String) (per_cpu : Bool) : Except PyErr CpuAgg := do
  let n ← getAttr m.cpu_len
  let data ← match phase with
    | some p => m.phase_usage p
    | none => m.range_usage start stop
  let buckets ← data.foldlM (fun b u => appendSample b u.cpu)
    (List.replicate n [])
  let first ← listGet buckets 0
  let samples := first.length
  if samples = 0 then
    .ok .absent
  else if per_cpu then
    .ok (.perCore (buckets.map (fun x => x.sum / (samples : ℚ))))
  else
    .ok (.scalar ((buckets.map List.sum).sum / (n : ℚ) / (samples : ℚ)))

/-- The inner loop `for i, v in enumerate(usage.io): io[i] += v`:
`IndexError` when the sample is longer than the accumulator. -/
def addInto (acc sample : List ℤ) : Except PyErr (List ℤ) :=
  match sample, acc with
  | [], a => .ok a
  | _ :: _, [] => .error .indexError
  | v :: vs, x :: xs => (addInto xs vs).map (fun r => (x + v) :: r)

/-- `aggregate_io(start, end, phase)`. -/
def Monitor.aggregate_io (m : Monitor) (start stop : Option ℚ)
    (phase : Option String) : Except PyErr (List ℤ) := do
  let n ← getAttr m.io_len
  let data ← match phase with
    | some p => m.phase_usage p
    | none => m.range_usage start stop
  data.foldlM (fun a u => addInto a u.io) (List.replicate n 0)

/-!
Call-style transcriptions of the four query methods.  A Python method
call takes the object and returns a result (or an exception) together
with the object state after the call; the methods below thread that
state through every statement of the corresponding source body, which
contains no assignment to `self`, so every exit returns the monitor it
received.  They are the embedding used for the frame/read-only claim.
-/

/-- `range_usage` as a call: result (or exception) plus post-state. -/
def Monitor.range_usage_call (m : Monitor) (start stop : Option ℚ) :
    Except PyErr (List SystemResourceUsage) × Monitor :=
  if ¬ m.stopped then (.ok [], m) else
    match getAttr m.time with
    | .error e => (.error e, m)
    | .ok timeL =>
      match startDefault timeL start with
      | .error e => (.error e, m)
      | .ok a =>
        match stopDefault timeL stop with
        | .error e => (.error e, m)
        | .ok b =>
          match listGet timeL 0 with
          | .error e => (.error e, m)
          | .ok last₀ =>
            match getAttr m.cpu, getAttr m.io, getAttr m.virt, getAttr m.swap with
            | .ok cpuL, .ok ioL, .ok virtL, .ok swapL =>
              (rangeLoop cpuL ioL virtL swapL a b 0 last₀ timeL, m)
            | .error e, _, _, _ => (.error e, m)
            | .ok _, .error e, _, _ => (.error e, m)
            | .ok _, .ok _, .error e, _ => (.error e, m)
            | .ok _, .ok _, .ok _, .error e => (.error e, m)

/-- `phase_usage` as a call: result (or exception) plus post-state. -/
def Monitor.phase_usage_call (m : Monitor) (phase : String) :
    Except PyErr (List SystemResourceUsage) × Monitor :=
  match pyAssert m.stopped with
  | .error e => (.error e, m)
  | .ok _ =>
    match findKey m.phases phase with
    | none => (.error .keyError, m)
    | some (t₀, t₁) => m.range_usage_call (some t₀) (some t₁)

/-- `aggregate_cpu` as a call: result (or exception) plus post-state. -/
def Monitor.aggregate_cpu_call (m : Monitor) (start stop : Option ℚ)
    (phase : Option String) (per_cpu : Bool) : Except PyErr CpuAgg × Monitor :=
  match getAttr m.cpu_len with
  | .error e => (.error e, m)
  | .ok n =>
    let dm := match phase with
      | some p => m.phase_usage_call p
      | none => m.range_usage_call start stop
    match dm.1 with
    | .error e => (.error e, dm.2)
    | .ok data =>
      match data.foldlM (fun b u => appendSample b u.cpu) (List.replicate n []) with
      | .error e => (.error e, dm.2)
      | .ok buckets =>
        match listGet buckets 0 with
        | .error e => (.error e, dm.2)
        | .ok first =>
          if first.length = 0 then (.ok .absent, dm.2)
          else if per_cpu then
            (.ok (.perCore (buckets.map (fun x => x.sum / (first.length : ℚ)))), dm.2)
          else
            (.ok (.scalar ((buckets.map List.sum).sum / (n : ℚ) / (first.length : ℚ))),
              dm.2)

/-- `aggregate_io` as a call: result (or exception) plus post-state. -/
def Monitor.aggregate_io_call (m : Monitor) (start stop : Option ℚ)
    (phase : Option String) : Except PyErr (List ℤ) × Monitor :=
  match getAttr m.io_len with
  | .error e => (.error e, m)
  | .ok n =>
    let dm := match phase with
      | some p => m.phase_usage_call p
      | none => m.range_usage_call start stop
    match dm.1 with
    | .error e => (.error e, dm.2)
    | .ok data =>
      (data.foldlM (fun a u => addInto a u.io) (List.replicate n 0), dm.2)

/-!  Concrete states used by counterexamples and witnesses. -/

/-- A fresh monitor on a psutil-less host, after `start()`. -/
def mNoneRun : Monitor := (Monitor.init false 0 0).start

/-- The state a psutil-less monitor is left in by `stop()`. -/
def mNoneStopped : Monitor := { psutil := false, stopped := true }

/-- A started monitor on a host with one cpu core and one io counter. -/
def mRun : Monitor := (Monitor.init true 1 1).start

/-- A drained channel whose sampler was killed between its `time` and
`cpu` writes of the second sample: the five per-tag sequences have
unequal lengths, and the received `virt` samples differ from the
received `io` samples. -/
def received1 : List Entry :=
  [Entry.time 1, Entry.io [5], Entry.virt [7], Entry.swap [2],
   Entry.cpu [50], Entry.time 2, Entry.done]

/-- A stopped monitor holding three samples, used to probe the queries. -/
def mEx : Monitor :=
  { psutil := true, cpu_len := some 1, io_len := some 1,
    start_time := some 1, end_time := some 3,
    stopped := true,
    time := some [1, 2, 3],
    cpu := some [[10], [20], [30]],
    io := some [[4], [5], [6]],
    virt := some [[0], [0], [0]],
    swap := some [[0], [0], [0]] }

/-!  Helper lemmas about `findKey`, `phasesStore` and filtering. -/

theorem findKey_append_self {α : Type} (l : List (String × α)) (k : String) (v : α)
    (h : findKey l k = none) : findKey (l ++ [(k, v)]) k = some v := by
  induction l with
  | nil => simp [findKey]
  | cons p rest ih =>
    rw [findKey] at h
    rcases p with ⟨k', v'⟩
    by_cases hk : k' = k
    · simp [hk] at h
    · simp [findKey, hk] at h ⊢
      exact ih h

theorem findKey_filter_ne {α : Type} (l : List (String × α)) (k : String) :
    findKey (l.filter (fun p => p.1 ≠ k)) k = none := by
  induction l with
  | nil => simp [findKey]
  | cons p rest ih =>
    by_cases hk : p.1 = k
    · simpa [List.filter, hk] using ih
    · simpa [List.filter, hk, findKey] using ih

theorem findKey_cons {α : Type} (k' : String) (v : α) (rest : List (String × α))
    (k : String) :
    findKey ((k', v) :: rest) k = if k' = k then some v else findKey rest k := rfl

theorem findKey_map_store {α : Type} (l : List (String × α)) (k : String) (v : α)
    (h : (findKey l k).isSome) :
    findKey (l.map (fun p => if p.1 = k then (k, v) else p)) k = some v := by
  induction l with
  | nil => simp [findKey] at h
  | cons p rest ih =>
    rcases p with ⟨k', v'⟩
    rw [findKey_cons] at h
    by_cases hk : k' = k
    · subst hk
      simp [findKey_cons]
    · rw [if_neg hk] at h
      simpa [findKey_cons, hk] using ih h

theorem findKey_phasesStore_self (l : List (String × ℚ × ℚ)) (k : String)
    (v : ℚ × ℚ) : findKey (phasesStore l k v) k = some v := by
  unfold phasesStore
  by_cases h : (findKey l k).isSome
  · rw [if_pos h]
    exact findKey_map_store l k v h
  · rw [if_neg h]
    exact findKey_append_self l k v (by
      cases hk : findKey l k
      · rfl
      · simp [hk] at h)

/-!  C8 — `begin_phase` / `finish_phase` state errors. -/

/-- C8: `begin_phase(name)` raises a state error exactly when `name` is in
the active-phase set, and otherwise records the phase start; `finish_phase(name)`
raises a state error exactly when `name` is not active, and otherwise
records the phase interval, removes `name` from the active set, and
returns the elapsed duration. -/
theorem begin_finish_phase_state_errors (m : Monitor) (name : String) (now : ℚ) :
    (m.begin_phase name now = .error .assertionError ↔
      (findKey m.active_phases name).isSome) ∧
    (findKey m.active_phases name = none →
      m.begin_phase name now =
        .ok { m with active_phases := m.active_phases ++ [(name, now)] }) ∧
    (m.finish_phase name now = .error .assertionError ↔
      findKey m.active_phases name = none) ∧
    (∀ t₀, findKey m.active_phases name = some t₀ →
      m.finish_phase name now =
        .ok (now - t₀,
          { m with
            phases := phasesStore m.phases name (t₀, now),
            active_phases := m.active_phases.filter (fun p => p.1 ≠ name) }) ∧
      findKey (m.active_phases.filter (fun p => p.1 ≠ name)) name = none) := by
  refine ⟨?_, ?_, ?_, ?_⟩
  · cases h : findKey m.active_phases name <;>
      simp [Monitor.begin_phase, pyAssert, h, Bind.bind, Except.bind]
  · intro h
    simp [Monitor.begin_phase, pyAssert, h, Bind.bind, Except.bind]
  · cases h : findKey m.active_phases name <;>
      simp [Monitor.finish_phase, h]
  · intro t₀ h
    refine ⟨by simp [Monitor.finish_phase, h], findKey_filter_ne _ _⟩

/-- Closed instance of C8: with `"x"` active since time 5, a second
`begin_phase("x")` raises the state error and `finish_phase("x")` at
time 9 succeeds, returning the elapsed 4 and emptying the active set. -/
theorem begin_finish_phase_state_errors_witness :
    Monitor.begin_phase { psutil := false, active_phases := [("x", 5)] } "x" 0 =
      .error .assertionError ∧
    Monitor.finish_phase { psutil := false, active_phases := [("x", 5)] } "x" 9 =
      .ok (4, { psutil := false, phases := [("x", 5, 9)], active_phases := [] }) := by
  constructor
  · exact (begin_finish_phase_state_errors
      { psutil := false, active_phases := [("x", 5)] } "x" 0).1.mpr (by decide)
  · have h := ((begin_finish_phase_state_errors
      { psutil := false, active_phases := [("x", 5)] } "x" 9).2.2.2) 5 (by decide)
    rw [h.1]
    norm_num [phasesStore, findKey]

/-!  C7 — the `with monitor.phase(name)` context manager. -/

/-- C7 counterexample: when the wrapped block raises, the context manager
generator (which has no `try`/`finally`) never runs `finish_phase`, so the
name is left in the active set after the block exits — refuting the claim
that `finish_phase` runs on every exit path. -/
theorem phase_cm_leaks_on_exception :
    ((Monitor.init true 1 1).phaseBlock "x" 1 2 (some .keyError)).2 =
      some .keyError ∧
    findKey ((Monitor.init true 1 1).phaseBlock "x" 1 2
      (some .keyError)).1.active_phases "x" = some 1 := by
  decide

/-- C7 amended: entering the block calls `begin_phase(name)`; on a normal
exit (including an early return from the enclosing function)
`finish_phase(name)` runs, removing the name from the active set and
recording the phase; but when the wrapped work raises, `finish_phase` is
skipped and the name stays in the active set while the exception
propagates. -/
theorem phase_cm_exit_paths (m : Monitor) (name : String) (t₁ t₂ : ℚ)
    (h : findKey m.active_phases name = none) :
    m.phaseBlock name t₁ t₂ none =
      ({ m with
          phases := phasesStore m.phases name (t₁, t₂),
          active_phases := m.active_phases.filter (fun p => p.1 ≠ name) }, none) ∧
    findKey (m.phaseBlock name t₁ t₂ none).1.active_phases name = none ∧
    (∀ e, (m.phaseBlock name t₁ t₂ (some e)).2 = some e ∧
      findKey (m.phaseBlock name t₁ t₂ (some e)).1.active_phases name = some t₁) := by
  have hbegin : m.begin_phase name t₁ =
      .ok { m with active_phases := m.active_phases ++ [(name, t₁)] } := by
    simp [Monitor.begin_phase, pyAssert, h, Bind.bind, Except.bind]
  have hfind : findKey (m.active_phases ++ [(name, t₁)]) name = some t₁ :=
    findKey_append_self _ _ _ h
  have hfilter : (m.active_phases ++ [(name, t₁)]).filter (fun p => p.1 ≠ name) =
      m.active_phases.filter (fun p => p.1 ≠ name) := by
    simp [List.filter_append]
  have hnorm : m.phaseBlock name t₁ t₂ none =
      ({ m with
          phases := phasesStore m.phases name (t₁, t₂),
          active_phases := m.active_phases.filter (fun p => p.1 ≠ name) }, none) := by
    simp [Monitor.phaseBlock, hbegin, Monitor.finish_phase, hfind, hfilter]
  refine ⟨hnorm, ?_, ?_⟩
  · rw [hnorm]
    exact findKey_filter_ne _ _
  · intro e
    simp [Monitor.phaseBlock, hbegin, hfind]

/-- Closed instance of the amended C7: a normal exit records the phase
`("p", (3, 7))` and leaves no active phase. -/
theorem phase_cm_exit_paths_witness :
    (Monitor.init true 1 1).phaseBlock "p" 3 7 none =
      ({ psutil := true, cpu_len := some 1, io_len := some 1,
         phases := [("p", 3, 7)], active_phases := [] }, none) := by
  have h := (phase_cm_exit_paths (Monitor.init true 1 1) "p" 3 7 (by decide)).1
  rw [h]
  decide

/-!  C4 — drain timeout without the `'done'` sentinel. -/

/-- C4 counterexample: when the per-receive timeout fires before the
`'done'` sentinel was seen (here: one `time` entry and then silence),
`stop()` does not proceed gracefully — `assert done` raises. -/
theorem stop_missing_sentinel_cex :
    mRun.stop [Entry.time 1] = .error .assertionError := rfl

/-- C4 amended: when the drain loop's timeout fires before the terminal
`'done'` sentinel is observed, the loop itself gives up without raising,
but `stop()` then fails the `assert done` check and raises an assertion
error; the Timeline is not built. -/
theorem stop_missing_sentinel (m : Monitor) (received : List Entry)
    (hp : m.psutil = true) (hr : m.running = true) (hs : m.stopped = false)
    (hd : (drain received).done = false) :
    m.stop received = .error .assertionError := by
  simp [Monitor.stop, hp, hr, hs, hd, pyAssert, Bind.bind, Except.bind]

/-- Closed instance of the amended C4. -/
theorem stop_missing_sentinel_witness :
    mRun.stop [Entry.time 1, Entry.cpu [2]] = .error .assertionError :=
  stop_missing_sentinel mRun [Entry.time 1, Entry.cpu [2]] rfl rfl rfl rfl

/-!  C3 — `stop()` with zero collected samples. -/

/-- C3 counterexample: when the sentinel arrives with no data entries at
all, `stop()` raises an `IndexError` at `self.start_time = self.time[0]`
instead of completing. -/
theorem stop_no_samples_cex :
    mRun.stop [Entry.done] = .error .indexError := rfl

/-- C3 amended: when the drain produced the `'done'` sentinel but no
`time` samples, the drain and the truncation step complete without
raising, but the final `self.start_time = self.time[0]` raises an
`IndexError`; `start_time`/`end_time` are never assigned. -/
theorem stop_no_samples (m : Monitor) (received : List Entry)
    (hp : m.psutil = true) (hr : m.running = true) (hs : m.stopped = false)
    (hd : (drain received).done = true) (ht : (drain received).time = []) :
    m.stop received = .error .indexError := by
  simp [Monitor.stop, hp, hr, hs, hd, ht, pyAssert, Bind.bind, Except.bind, listGet]

/-- Closed instance of the amended C3. -/
theorem stop_no_samples_witness :
    mRun.stop [Entry.cpu [3], Entry.done] = .error .indexError :=
  stop_no_samples mRun [Entry.cpu [3], Entry.done] rfl rfl rfl rfl rfl

/-!  C2 — queries after a psutil-less run. -/

/-- C2 counterexample: on a psutil-less host, `start(); stop()` indeed
raise nothing, but the subsequent `aggregate_cpu()` call does not return
an absent/empty result — it raises an `AttributeError` reading the
never-created `_cpu_len`. -/
theorem psutil_none_query_cex :
    mNoneRun.stop [] = .ok mNoneStopped ∧
    mNoneStopped.aggregate_cpu none none none true = .error .attributeError := by
  exact ⟨rfl, rfl⟩

/-- C2 amended: without psutil, `start()`/`stop()` are no-ops that raise
nothing, but afterwards the query operations raise `AttributeError`
rather than returning empty results: `aggregate_cpu` and `aggregate_io`
read the never-created `_cpu_len`/`_io_len`, and consuming `range_usage`
reads the never-created `time` attribute. -/
theorem psutil_none_queries_raise (c i : Nat) (s e : Option ℚ) (pc : Bool) :
    ∃ m' : Monitor, (Monitor.init false c i).start.stop [] = .ok m' ∧
      m'.aggregate_cpu s e none pc = .error .attributeError ∧
      m'.aggregate_io s e none = .error .attributeError ∧
      m'.range_usage s e = .error .attributeError := by
  refine ⟨mNoneStopped, rfl, rfl, rfl, ?_⟩
  cases s <;> cases e <;> rfl

/-!  C1 — the length-reconciliation (truncation) step of `stop()`. -/

/-- C1: on `received1` the sampler died mid-write, the five received
sequences have lengths `[1, 1, 1, 1, 2]`, and `stop()` recovers without
raising, leaving all five sequences with equal length 1; but the final
`virt` sequence is the truncated `io` sequence (`self.virt =
self.io[0:l]`), not a prefix of the received `virt` sequence, whose
truncation is `[[7]]`. -/
theorem stop_virt_truncation_eval :
    (mRun.stop received1).map Monitor.virt = .ok (some [[5]]) ∧
    (drain received1).virt.take 1 = [[7]] ∧
    (mRun.stop received1).map Monitor.virt ≠
      .ok (some ((drain received1).virt.take 1)) ∧
    (mRun.stop received1).map (fun m' =>
      [(m'.cpu.getD []).length, (m'.io.getD []).length, (m'.virt.getD []).length,
       (m'.swap.getD []).length, (m'.time.getD []).length]) =
      .ok [1, 1, 1, 1, 1] := by
  refine ⟨rfl, rfl, ?_, rfl⟩
  intro h
  rw [show (mRun.stop received1).map Monitor.virt = .ok (some [[5]]) from rfl,
    show (drain received1).virt.take 1 = [[7]] from rfl] at h
  exact absurd h (by simp)

/-!  C5 — `window_start` of the windows yielded by `range_usage`. -/

theorem rangeLoop_starts (cpuL : List (List ℚ)) (ioL virtL swapL : List (List ℤ))
    (a b : ℚ) :
    ∀ (ts : List ℚ) (i : Nat) (last : ℚ) (ws : List SystemResourceUsage),
      rangeLoop cpuL ioL virtL swapL a b i last ts = .ok ws →
      (∀ h : ws ≠ [], (ws.head h).start = last) ∧
      List.Chain' (fun u v => v.start = u.stop) ws := by
  intro ts
  induction ts with
  | nil =>
    intro i last ws h
    rw [rangeLoop] at h
    cases h
    exact ⟨fun hne => absurd rfl hne, List.chain'_nil⟩
  | cons t rest ih =>
    intro i last ws h
    rw [rangeLoop] at h
    by_cases h1 : t < a
    · rw [if_pos h1] at h
      exact ih (i + 1) last ws h
    · rw [if_neg h1] at h
      by_cases h2 : b < t
      · rw [if_pos h2] at h
        cases h
        exact ⟨fun hne => absurd rfl hne, List.chain'_nil⟩
      · rw [if_neg h2] at h
        cases hc : listGet cpuL i with
        | error e => rw [hc] at h; simp [Bind.bind, Except.bind] at h
        | ok c =>
        cases hd : listGet ioL i with
        | error e => rw [hc, hd] at h; simp [Bind.bind, Except.bind] at h
        | ok d =>
        cases hv : listGet virtL i with
        | error e => rw [hc, hd, hv] at h; simp [Bind.bind, Except.bind] at h
        | ok v =>
        cases hs : listGet swapL i with
        | error e => rw [hc, hd, hv, hs] at h; simp [Bind.bind, Except.bind] at h
        | ok s =>
        cases hr : rangeLoop cpuL ioL virtL swapL a b (i + 1) t rest with
        | error e => rw [hc, hd, hv, hs, hr] at h; simp [Bind.bind, Except.bind] at h
        | ok ws' =>
          rw [hc, hd, hv, hs, hr] at h
          simp only [Bind.bind, Except.bind, Except.ok.injEq] at h
          obtain ⟨hhead, hchain⟩ := ih (i + 1) t ws' hr
          subst h
          refine ⟨fun _ => rfl, ?_⟩
          cases ws' with
          | nil => simp
          | cons u us =>
            rw [List.chain'_cons]
            exact ⟨hhead (List.cons_ne_nil u us), hchain⟩

theorem range_usage_eq_rangeLoop (m : Monitor) (s e : Option ℚ) (t : ℚ)
    (rest : List ℚ) (cpuL : List (List ℚ)) (ioL virtL swapL : List (List ℤ))
    (hst : m.stopped = true) (ht : m.time = some (t :: rest))
    (hc : m.cpu = some cpuL) (hio : m.io = some ioL)
    (hv : m.virt = some virtL) (hsw : m.swap = some swapL) :
    ∃ a b, m.range_usage s e =
        rangeLoop cpuL ioL virtL swapL a b 0 t (t :: rest) ∧
      (∀ x, s = some x → a = x) ∧ (s = none → a = t) := by
  refine ⟨s.getD t, e.getD ((t :: rest).getD rest.length 0), ?_, ?_, ?_⟩
  · cases s <;> cases e <;>
      simp [Monitor.range_usage, hst, ht, hc, hio, hv, hsw, getAttr,
        startDefault, stopDefault, listGet, Bind.bind, Except.bind]
  · intro x hx
    subst hx
    rfl
  · intro hn
    subst hn
    rfl

/-- C5 counterexample: on the stopped monitor `mEx` (timestamps 1, 2, 3)
queried with `start = 2`, the first yielded window has `window_start = 1`
— the first timestamp of the whole Timeline, not the queried start bound
2 — so the first window does stretch before the queried start. -/
theorem range_usage_first_window_cex :
    mEx.range_usage (some 2) (some 3) =
      .ok [⟨1, 2, [20], [5], [0], [0]⟩, ⟨2, 3, [30], [6], [0], [0]⟩] ∧
    (1 : ℚ) ≠ 2 := by
  exact ⟨rfl, by norm_num⟩

/-- C5 amended: each yielded window's `window_start` is the previous
in-range entry's timestamp, but the first yielded window's
`window_start` is always `time[0]`, the first timestamp of the whole
Timeline (the `last` accumulator starts there and is not advanced by
skipped entries), which precedes the queried start bound whenever any
entry was skipped. -/
theorem range_usage_window_starts (m : Monitor) (s e : Option ℚ) (t : ℚ)
    (rest : List ℚ) (cpuL : List (List ℚ)) (ioL virtL swapL : List (List ℤ))
    (ws : List SystemResourceUsage)
    (hst : m.stopped = true) (ht : m.time = some (t :: rest))
    (hc : m.cpu = some cpuL) (hio : m.io = some ioL)
    (hv : m.virt = some virtL) (hsw : m.swap = some swapL)
    (hws : m.range_usage s e = .ok ws) :
    (∀ h : ws ≠ [], (ws.head h).start = t) ∧
    List.Chain' (fun u v => v.start = u.stop) ws := by
  obtain ⟨a, b, heq, -, -⟩ :=
    range_usage_eq_rangeLoop m s e t rest cpuL ioL virtL swapL hst ht hc hio hv hsw
  rw [heq] at hws
  exact rangeLoop_starts cpuL ioL virtL swapL a b (t :: rest) 0 t ws hws

/-- Closed instance of the amended C5 on `mEx`: the first window starts
at `time[0] = 1` and each later window starts at the previous window's
end. -/
theorem range_usage_window_starts_witness :
    (∀ h : [(⟨1, 2, [20], [5], [0], [0]⟩ : SystemResourceUsage),
            ⟨2, 3, [30], [6], [0], [0]⟩] ≠ [],
      (([(⟨1, 2, [20], [5], [0], [0]⟩ : SystemResourceUsage),
         ⟨2, 3, [30], [6], [0], [0]⟩]).head h).start = 1) ∧
    List.Chain' (fun u v => v.start = u.stop)
      [(⟨1, 2, [20], [5], [0], [0]⟩ : SystemResourceUsage),
       ⟨2, 3, [30], [6], [0], [0]⟩] :=
  range_usage_window_starts mEx (some 2) (some 3) 1 [2, 3]
    [[10], [20], [30]] [[4], [5], [6]] [[0], [0], [0]] [[0], [0], [0]]
    [⟨1, 2, [20], [5], [0], [0]⟩, ⟨2, 3, [30], [6], [0], [0]⟩]
    rfl rfl rfl rfl rfl rfl rfl

/-!  C10 — the queries are read-only. -/

theorem range_usage_call_spec (m : Monitor) (s e : Option ℚ) :
    m.range_usage_call s e = (m.range_usage s e, m) := by
  unfold Monitor.range_usage_call Monitor.range_usage
  by_cases hst : m.stopped = true
  · rw [if_neg (by simp [hst]), if_neg (by simp [hst])]
    simp only [Bind.bind, Except.bind]
    rcases h1 : getAttr m.time with err | timeL
    · simp [h1]
    simp only [h1]
    rcases h2 : startDefault timeL s with err | a
    · simp [h2]
    simp only [h2]
    rcases h3 : stopDefault timeL e with err | b
    · simp [h3]
    simp only [h3]
    rcases h4 : listGet timeL 0 with err | last₀
    · simp [h4]
    simp only [h4]
    rcases h5 : getAttr m.cpu with err | cpuL
    · simp [h5]
    simp only [h5]
    rcases h6 : getAttr m.io with err | ioL
    · simp [h6]
    simp only [h6]
    rcases h7 : getAttr m.virt with err | virtL
    · simp [h7]
    simp only [h7]
    rcases h8 : getAttr m.swap with err | swapL <;> simp [h8]
  · rw [if_pos (by simp [hst]), if_pos (by simp [hst])]

theorem phase_usage_call_spec (m : Monitor) (p : String) :
    m.phase_usage_call p = (m.phase_usage p, m) := by
  unfold Monitor.phase_usage_call Monitor.phase_usage
  simp only [Bind.bind, Except.bind]
  rcases h1 : pyAssert m.stopped with err | u
  · simp [h1]
  simp only [h1]
  rcases h2 : findKey m.phases p with _ | ⟨t₀, t₁⟩
  · simp [h2]
  · simp [h2, range_usage_call_spec]

theorem aggregate_cpu_call_spec (m : Monitor) (s e : Option ℚ)
    (phase : Option String) (pc : Bool) :
    m.aggregate_cpu_call s e phase pc = (m.aggregate_cpu s e phase pc, m) := by
  unfold Monitor.aggregate_cpu_call Monitor.aggregate_cpu
  simp only [Bind.bind, Except.bind]
  rcases hn : getAttr m.cpu_len with err | n
  · simp [hn]
  simp only [hn]
  rcases phase with _ | p
  all_goals dsimp only
  · rw [range_usage_call_spec]
    dsimp only
    rcases hr : m.range_usage s e with err | data
    · simp [hr]
    simp only [hr]
    rcases hf : data.foldlM (fun b u => appendSample b u.cpu)
        (List.replicate n []) with err | buckets
    · simp [hf]
    simp only [hf]
    rcases hg : listGet buckets 0 with err | first
    · simp [hg]
    simp only [hg]
    by_cases h0 : first.length = 0
    · simp [h0]
    · by_cases hpc : pc = true <;> simp [h0, hpc]
  · rw [phase_usage_call_spec]
    dsimp only
    rcases hr : m.phase_usage p with err | data
    · simp [hr]
    simp only [hr]
    rcases hf : data.foldlM (fun b u => appendSample b u.cpu)
        (List.replicate n []) with err | buckets
    · simp [hf]
    simp only [hf]
    rcases hg : listGet buckets 0 with err | first
    · simp [hg]
    simp only [hg]
    by_cases h0 : first.length = 0
    · simp [h0]
    · by_cases hpc : pc = true <;> simp [h0, hpc]

theorem aggregate_io_call_spec (m : Monitor) (s e : Option ℚ)
    (phase : Option String) :
    m.aggregate_io_call s e phase = (m.aggregate_io s e phase, m) := by
  unfold Monitor.aggregate_io_call Monitor.aggregate_io
  simp only [Bind.bind, Except.bind]
  rcases hn : getAttr m.io_len with err | n
  · simp [hn]
  simp only [hn]
  rcases phase with _ | p
  all_goals dsimp only
  · rw [range_usage_call_spec]
    dsimp only
    rcases hr : m.range_usage s e with err | data <;> simp [hr]
  · rw [phase_usage_call_spec]
    dsimp only
    rcases hr : m.phase_usage p with err | data <;> simp [hr]

/-- C10: the query operations are read-only — called in any monitor
state, `range_usage`, `phase_usage`, `aggregate_cpu` and `aggregate_io`
return the monitor unchanged (every field), their results agree with the
pure functions of the monitor value, and re-running a query on the
post-call state returns the same result as the first call. -/
theorem queries_read_only (m : Monitor) (s e : Option ℚ) (p : String)
    (phase : Option String) (pc : Bool) :
    (m.range_usage_call s e).2 = m ∧
    (m.phase_usage_call p).2 = m ∧
    (m.aggregate_cpu_call s e phase pc).2 = m ∧
    (m.aggregate_io_call s e phase).2 = m ∧
    (m.range_usage_call s e).1 = m.range_usage s e ∧
    (m.phase_usage_call p).1 = m.phase_usage p ∧
    (m.aggregate_cpu_call s e phase pc).1 = m.aggregate_cpu s e phase pc ∧
    (m.aggregate_io_call s e phase).1 = m.aggregate_io s e phase ∧
    ((m.aggregate_cpu_call s e phase pc).2.aggregate_cpu_call s e phase pc).1 =
      (m.aggregate_cpu_call s e phase pc).1 ∧
    ((m.aggregate_io_call s e phase).2.aggregate_io_call s e phase).1 =
      (m.aggregate_io_call s e phase).1 := by
  simp [range_usage_call_spec, phase_usage_call_spec, aggregate_cpu_call_spec,
    aggregate_io_call_spec]

/-!  C9 — `aggregate_cpu` scalar versus per-core means. -/

theorem listGet_eq_getD {α : Type} (l : List α) (i : Nat) (d : α)
    (h : i < l.length) : listGet l i = .ok (l.getD i d) := by
  unfold listGet
  rw [List.get?_eq_get h]
  have : l.getD i d = l.get ⟨i, h⟩ := by
    simp [List.getD_eq_getElem?_getD, List.getElem?_eq_getElem h, List.get_eq_getElem]
  rw [this]

theorem appendSample_eq_zipWith :
    ∀ (sample : List ℚ) (buckets : List (List ℚ)),
      sample.length = buckets.length →
      appendSample buckets sample =
        .ok (List.zipWith (fun bk v => bk ++ [v]) buckets sample) := by
  intro sample
  induction sample with
  | nil =>
    intro buckets h
    cases buckets with
    | nil => rfl
    | cons b bs => simp at h
  | cons v vs ih =>
    intro buckets h
    cases buckets with
    | nil => simp at h
    | cons b bs =>
      simp only [List.length_cons] at h
      have := ih bs (by omega)
      simp [appendSample, this, List.zipWith, Except.map]

theorem foldlM_appendSample (ws : List SystemResourceUsage) :
    ∀ b : List (List ℚ), (∀ u ∈ ws, u.cpu.length = b.length) →
      ws.foldlM (fun b u => appendSample b u.cpu) b =
        .ok (ws.foldl (fun b u => List.zipWith (fun bk v => bk ++ [v]) b u.cpu) b) := by
  induction ws with
  | nil => intro b _; rfl
  | cons u us ih =>
    intro b h
    have hcpu := h u (List.mem_cons_self u us)
    have hlen : (List.zipWith (fun bk v => bk ++ [v]) b u.cpu).length = b.length := by
      rw [List.length_zipWith, hcpu, Nat.min_self]
    rw [List.foldlM_cons, appendSample_eq_zipWith u.cpu b hcpu]
    simp only [Bind.bind, Except.bind]
    rw [ih _ (fun u' hu' => by rw [h u' (List.mem_cons_of_mem u hu'), hlen])]
    rfl

theorem zipWith_append_getD (b : List (List ℚ)) :
    ∀ (s : List ℚ) (k : Nat), s.length = b.length → k < b.length →
      (List.zipWith (fun bk v => bk ++ [v]) b s).getD k [] =
        b.getD k [] ++ [s.getD k 0] := by
  induction b with
  | nil => intro s k _ hk; simp at hk
  | cons x xs ih =>
    intro s k h hk
    cases s with
    | nil => simp at h
    | cons v vs =>
      cases k with
      | zero => rfl
      | succ k' =>
        simp only [List.length_cons] at h hk
        exact ih vs k' (by omega) (by omega)

theorem cpuFold_length (ws : List SystemResourceUsage) :
    ∀ b : List (List ℚ), (∀ u ∈ ws, u.cpu.length = b.length) →
      (ws.foldl (fun b u => List.zipWith (fun bk v => bk ++ [v]) b u.cpu) b).length
        = b.length := by
  induction ws with
  | nil => intro b _; rfl
  | cons u us ih =>
    intro b h
    have hcpu := h u (List.mem_cons_self u us)
    have hlen : (List.zipWith (fun bk v => bk ++ [v]) b u.cpu).length = b.length := by
      rw [List.length_zipWith, hcpu, Nat.min_self]
    rw [List.foldl_cons,
      ih _ (fun u' hu' => by rw [h u' (List.mem_cons_of_mem u hu'), hlen])]
    exact hlen

theorem cpuFold_getD (ws : List SystemResourceUsage) :
    ∀ (b : List (List ℚ)) (k : Nat), (∀ u ∈ ws, u.cpu.length = b.length) →
      k < b.length →
      (ws.foldl (fun b u => List.zipWith (fun bk v => bk ++ [v]) b u.cpu) b).getD k []
        = b.getD k [] ++ ws.map (fun u => u.cpu.getD k 0) := by
  induction ws with
  | nil => intro b k _ _; simp
  | cons u us ih =>
    intro b k h hk
    have hcpu := h u (List.mem_cons_self u us)
    have hlen : (List.zipWith (fun bk v => bk ++ [v]) b u.cpu).length = b.length := by
      rw [List.length_zipWith, hcpu, Nat.min_self]
    rw [List.foldl_cons, List.map_cons,
      ih _ k (fun u' hu' => by rw [h u' (List.mem_cons_of_mem u hu'), hlen])
        (by omega),
      zipWith_append_getD b u.cpu k hcpu hk]
    simp

theorem zipWith_append_sum (b : List (List ℚ)) :
    ∀ s : List ℚ, s.length = b.length →
      ((List.zipWith (fun bk v => bk ++ [v]) b s).map List.sum).sum =
        (b.map List.sum).sum + s.sum := by
  induction b with
  | nil =>
    intro s h
    cases s with
    | nil => simp
    | cons v vs => simp at h
  | cons x xs ih =>
    intro s h
    cases s with
    | nil => simp at h
    | cons v vs =>
      simp only [List.length_cons] at h
      simp only [List.zipWith, List.map_cons, List.sum_cons, List.sum_append,
        ih vs (by omega), List.sum_cons, List.sum_nil]
      ring

theorem cpuFold_sum (ws : List SystemResourceUsage) :
    ∀ b : List (List ℚ), (∀ u ∈ ws, u.cpu.length = b.length) →
      ((ws.foldl (fun b u => List.zipWith (fun bk v => bk ++ [v]) b u.cpu) b).map
        List.sum).sum
        = (b.map List.sum).sum + (ws.map (fun u => u.cpu.sum)).sum := by
  induction ws with
  | nil => intro b _; simp
  | cons u us ih =>
    intro b h
    have hcpu := h u (List.mem_cons_self u us)
    have hlen : (List.zipWith (fun bk v => bk ++ [v]) b u.cpu).length = b.length := by
      rw [List.length_zipWith, hcpu, Nat.min_self]
    rw [List.foldl_cons,
      ih _ (fun u' hu' => by rw [h u' (List.mem_cons_of_mem u hu'), hlen]),
      zipWith_append_sum b u.cpu hcpu, List.map_cons, List.sum_cons]
    ring

theorem list_sum_div (L : List (List ℚ)) (c : ℚ) :
    (L.map (fun x => x.sum / c)).sum = (L.map List.sum).sum / c := by
  induction L with
  | nil => simp
  | cons x xs ih => simp [ih, add_div]

theorem replicate_nil_getD (n k : Nat) :
    (List.replicate n ([] : List ℚ)).getD k [] = [] := by
  induction n generalizing k with
  | zero => simp
  | succ n ih =>
    cases k with
    | zero => rfl
    | succ k' => simp [List.replicate, ih k']

/-- C9: on a stopped monitor whose selected range yields at least one
window and whose samples all carry `_cpu_len` core readings,
`aggregate_cpu(..., per_cpu=False)` returns the single scalar equal to
the mean of the per-core means returned by
`aggregate_cpu(..., per_cpu=True)`, which is the global mean of the cpu
percentages over all (core, sample) pairs in the range. -/
theorem aggregate_cpu_scalar_mean (m : Monitor) (s e : Option ℚ)
    (ws : List SystemResourceUsage) (n : Nat)
    (hn : m.cpu_len = some n) (hn0 : 0 < n)
    (hws : m.range_usage s e = .ok ws) (hne : ws ≠ [])
    (hlen : ∀ u ∈ ws, u.cpu.length = n) :
    ∃ l : List ℚ,
      m.aggregate_cpu s e none true = .ok (.perCore l) ∧
      l.length = n ∧
      m.aggregate_cpu s e none false = .ok (.scalar (l.sum / (l.length : ℚ))) ∧
      l.sum / (l.length : ℚ) =
        (ws.map (fun u => u.cpu.sum)).sum / ((n : ℚ) * (ws.length : ℚ)) := by
  have hb : ∀ u ∈ ws, u.cpu.length = (List.replicate n ([] : List ℚ)).length := by
    intro u hu
    rw [List.length_replicate]
    exact hlen u hu
  have hfold := foldlM_appendSample ws (List.replicate n []) hb
  set B := ws.foldl (fun b u => List.zipWith (fun bk v => bk ++ [v]) b u.cpu)
    (List.replicate n ([] : List ℚ)) with hBdef
  have hBlen : B.length = n := by
    rw [hBdef, cpuFold_length ws _ hb, List.length_replicate]
  have hB0 : B.getD 0 [] = ws.map (fun u => u.cpu.getD 0 0) := by
    rw [hBdef, cpuFold_getD ws _ 0 hb (by rw [List.length_replicate]; exact hn0),
      replicate_nil_getD]
    simp
  have hfirst : listGet B 0 = .ok (ws.map (fun u => u.cpu.getD 0 0)) := by
    rw [listGet_eq_getD B 0 [] (by omega), hB0]
  have hwl : ws.length ≠ 0 := fun hc => hne (List.length_eq_zero.mp hc)
  have key : ∀ pc : Bool, m.aggregate_cpu s e none pc =
      if ws.length = 0 then .ok .absent
      else if pc = true then
        .ok (.perCore (B.map (fun x => x.sum / ((ws.length : Nat) : ℚ))))
      else
        .ok (.scalar ((B.map List.sum).sum / (n : ℚ) / ((ws.length : Nat) : ℚ))) := by
    intro pc
    have hgA : getAttr m.cpu_len = .ok n := by rw [hn]; rfl
    simp only [Monitor.aggregate_cpu, Bind.bind, Except.bind, hgA, hws, hfold,
      hfirst, List.length_map]
  have hllen : (B.map (fun x => x.sum / ((ws.length : Nat) : ℚ))).length = n := by
    rw [List.length_map, hBlen]
  refine ⟨B.map (fun x => x.sum / ((ws.length : Nat) : ℚ)), ?_, hllen, ?_, ?_⟩
  · rw [key true, if_neg hwl, if_pos rfl]
  · rw [key false, if_neg hwl]
    have hq : (B.map List.sum).sum / (n : ℚ) / ((ws.length : Nat) : ℚ) =
        (B.map (fun x => x.sum / ((ws.length : Nat) : ℚ))).sum /
          (((B.map (fun x => x.sum / ((ws.length : Nat) : ℚ))).length : Nat) : ℚ) := by
      rw [list_sum_div, hllen, div_right_comm]
    rw [hq]
    simp
  · have hT : (B.map List.sum).sum = (ws.map (fun u => u.cpu.sum)).sum := by
      rw [hBdef, cpuFold_sum ws _ hb]
      simp
    rw [list_sum_div, hllen, hT, div_div, mul_comm ((ws.length : Nat) : ℚ) (n : ℚ)]

/-- Closed instance of C9 on `mEx` (one core, three in-range samples):
the scalar equals the mean of the per-core means and the global mean. -/
theorem aggregate_cpu_scalar_mean_witness :
    ∃ l : List ℚ,
      mEx.aggregate_cpu none none none true = .ok (.perCore l) ∧
      l.length = 1 ∧
      mEx.aggregate_cpu none none none false = .ok (.scalar (l.sum / (l.length : ℚ))) ∧
      l.sum / (l.length : ℚ) =
        (([⟨1, 1, [10], [4], [0], [0]⟩, ⟨1, 2, [20], [5], [0], [0]⟩,
           ⟨2, 3, [30], [6], [0], [0]⟩] : List SystemResourceUsage).map
          (fun u => u.cpu.sum)).sum /
          ((1 : ℚ) * ((([⟨1, 1, [10], [4], [0], [0]⟩, ⟨1, 2, [20], [5], [0], [0]⟩,
            ⟨2, 3, [30], [6], [0], [0]⟩] : List SystemResourceUsage).length : Nat) : ℚ)) :=
  aggregate_cpu_scalar_mean mEx none none
    [⟨1, 1, [10], [4], [0], [0]⟩, ⟨1, 2, [20], [5], [0], [0]⟩,
     ⟨2, 3, [30], [6], [0], [0]⟩] 1
    rfl (by decide) rfl (by decide) (by decide)

/-!  C6 — additivity of `aggregate_io` across an interior boundary. -/

theorem addInto_eq_zipWith :
    ∀ (sample acc : List ℤ), sample.length = acc.length →
      addInto acc sample = .ok (List.zipWith (fun x v => x + v) acc sample) := by
  intro sample
  induction sample with
  | nil =>
    intro acc h
    cases acc with
    | nil => rfl
    | cons x xs => simp at h
  | cons v vs ih =>
    intro acc h
    cases acc with
    | nil => simp at h
    | cons x xs =>
      simp only [List.length_cons] at h
      have := ih xs (by omega)
      simp [addInto, this, List.zipWith, Except.map]

theorem foldlM_addInto (ws : List SystemResourceUsage) :
    ∀ acc : List ℤ, (∀ u ∈ ws, u.io.length = acc.length) →
      ws.foldlM (fun a u => addInto a u.io) acc =
        .ok (ws.foldl (fun a u => List.zipWith (fun x v => x + v) a u.io) acc) := by
  induction ws with
  | nil => intro acc _; rfl
  | cons u us ih =>
    intro acc h
    have hlen : (List.zipWith (fun x v => x + v) acc u.io).length = acc.length := by
      rw [List.length_zipWith, h u (List.mem_cons_self u us), Nat.min_self]
    rw [List.foldlM_cons, addInto_eq_zipWith u.io acc (h u (List.mem_cons_self u us))]
    simp only [Bind.bind, Except.bind]
    rw [ih _ (fun u' hu' => by rw [h u' (List.mem_cons_of_mem u hu'), hlen])]
    rfl

theorem zipWith_add_getD :
    ∀ (a v : List ℤ) (k : Nat), v.length = a.length →
      (List.zipWith (fun x w => x + w) a v).getD k 0 = a.getD k 0 + v.getD k 0 := by
  intro a
  induction a with
  | nil =>
    intro v k h
    cases v with
    | nil => simp
    | cons w ws => simp at h
  | cons x xs ih =>
    intro v k h
    cases v with
    | nil => simp at h
    | cons w ws =>
      simp only [List.length_cons] at h
      cases k with
      | zero => rfl
      | succ k' => exact ih ws k' (by omega)

theorem ioFold_length (ws : List SystemResourceUsage) :
    ∀ acc : List ℤ, (∀ u ∈ ws, u.io.length = acc.length) →
      (ws.foldl (fun a u => List.zipWith (fun x v => x + v) a u.io) acc).length
        = acc.length := by
  induction ws with
  | nil => intro acc _; rfl
  | cons u us ih =>
    intro acc h
    have hlen : (List.zipWith (fun x v => x + v) acc u.io).length = acc.length := by
      rw [List.length_zipWith, h u (List.mem_cons_self u us), Nat.min_self]
    rw [List.foldl_cons,
      ih _ (fun u' hu' => by rw [h u' (List.mem_cons_of_mem u hu'), hlen])]
    exact hlen

theorem ioFold_getD (ws : List SystemResourceUsage) :
    ∀ (acc : List ℤ) (k : Nat), (∀ u ∈ ws, u.io.length = acc.length) →
      (ws.foldl (fun a u => List.zipWith (fun x v => x + v) a u.io) acc).getD k 0
        = acc.getD k 0 + (ws.map (fun u => u.io.getD k 0)).sum := by
  induction ws with
  | nil => intro acc k _; simp
  | cons u us ih =>
    intro acc k h
    have hcpu := h u (List.mem_cons_self u us)
    have hlen : (List.zipWith (fun x v => x + v) acc u.io).length = acc.length := by
      rw [List.length_zipWith, hcpu, Nat.min_self]
    rw [List.foldl_cons, List.map_cons, List.sum_cons,
      ih _ k (fun u' hu' => by rw [h u' (List.mem_cons_of_mem u hu'), hlen]),
      zipWith_add_getD acc u.io k hcpu]
    ring

theorem replicate_zero_getD (n k : Nat) :
    (List.replicate n (0 : ℤ)).getD k 0 = 0 := by
  induction n generalizing k with
  | zero => simp
  | succ n ih =>
    cases k with
    | zero => rfl
    | succ k' => simp [List.replicate, ih k']

theorem filter_cons_map_sum {α : Type} (x : α) (xs : List α) (f : α → ℤ)
    (P : α → Bool) :
    (((x :: xs).filter P).map f).sum =
      (if P x then f x else 0) + ((xs.filter P).map f).sum := by
  by_cases h : P x
  · simp [List.filter_cons, h]
  · simp [List.filter_cons, h]

theorem sum_filter_split {α : Type} (f : α → ℤ) (P Q R S : α → Bool)
    (h : ∀ x, (if P x then f x else 0) + (if Q x then f x else 0) =
      (if R x then f x else 0) + (if S x then f x else 0)) :
    ∀ L : List α, ((L.filter P).map f).sum + ((L.filter Q).map f).sum =
      ((L.filter R).map f).sum + ((L.filter S).map f).sum := by
  intro L
  induction L with
  | nil => simp
  | cons x xs ih =>
    rw [filter_cons_map_sum, filter_cons_map_sum, filter_cons_map_sum,
      filter_cons_map_sum]
    have hx := h x
    omega

theorem boundary_indicator (t0 t1 t2 : ℚ) (h01 : t0 < t1) (h12 : t1 < t2)
    (t : ℚ) (z : ℤ) :
    (if (decide (t0 ≤ t) && decide (t ≤ t1)) = true then z else 0) +
      (if (decide (t1 ≤ t) && decide (t ≤ t2)) = true then z else 0) =
    (if (decide (t0 ≤ t) && decide (t ≤ t2)) = true then z else 0) +
      (if decide (t = t1) = true then z else 0) := by
  by_cases ht : t = t1
  · subst ht
    simp [le_of_lt h01, le_of_lt h12]
  · by_cases hB : t ≤ t1
    · have hC : ¬ t1 ≤ t := fun hc => ht (le_antisymm hB hc)
      have hD : t ≤ t2 := le_trans hB (le_of_lt h12)
      by_cases hA : t0 ≤ t <;> simp [hA, hB, hC, hD, ht]
    · have hC : t1 ≤ t := le_of_not_le hB
      have hA : t0 ≤ t := le_trans (le_of_lt h01) hC
      by_cases hD : t ≤ t2 <;> simp [hA, hB, hC, hD, ht]

theorem zip_filter_singleton (t1 : ℚ) :
    ∀ (ts : List ℚ) (i j : Nat) (hsort : List.Pairwise (· < ·) ts)
      (hj : j < ts.length), ts.get ⟨j, hj⟩ = t1 →
      ((List.range' i ts.length).zip ts).filter (fun p => decide (p.2 = t1)) =
        [(i + j, t1)] := by
  intro ts
  induction ts with
  | nil => intro i j _ hj _; simp at hj
  | cons t rest ih =>
    intro i j hsort hj ht1
    have hr : List.range' i (rest.length + 1) = i :: List.range' (i + 1) rest.length := rfl
    rw [List.length_cons, hr, List.zip_cons_cons, List.filter_cons]
    cases j with
    | zero =>
      have htt : t = t1 := ht1
      subst htt
      rw [if_pos (by simp)]
      have hrest : ((List.range' (i + 1) rest.length).zip rest).filter
          (fun p => decide (p.2 = t)) = [] := by
        apply List.filter_eq_nil_iff.mpr
        intro p hp
        have hmem := (List.of_mem_zip hp).2
        have hlt := (List.pairwise_cons.mp hsort).1 p.2 hmem
        simp only [decide_eq_true_eq]
        exact fun hc => absurd hlt (by rw [hc]; exact lt_irrefl t)
      rw [hrest]
      simp
    | succ j' =>
      have hj' : j' < rest.length := by
        simpa using Nat.lt_of_succ_lt_succ hj
      have ht1' : rest.get ⟨j', hj'⟩ = t1 := ht1
      have hlt : t < t1 := by
        rw [← ht1']
        exact (List.pairwise_cons.mp hsort).1 _ (List.get_mem rest j' hj')
      rw [if_neg (by simp only [decide_eq_true_eq]; exact ne_of_lt hlt),
        ih (i + 1) j' hsort.of_cons hj' ht1']
      have : i + 1 + j' = i + (j' + 1) := by omega
      rw [this]

theorem list_eq_of_getD (a b : List ℤ) (hlen : a.length = b.length)
    (h : ∀ k, a.getD k 0 = b.getD k 0) : a = b := by
  apply List.ext_getElem hlen
  intro k h1 h2
  have hk := h k
  rwa [List.getD_eq_getElem?_getD, List.getD_eq_getElem?_getD,
    List.getElem?_eq_getElem h1, List.getElem?_eq_getElem h2, Option.getD_some,
    Option.getD_some] at hk

theorem getD_mem_length (ioL : List (List ℤ)) (n : Nat)
    (hsamp : ∀ v ∈ ioL, v.length = n) (j : Nat) (hj : j < ioL.length) :
    (ioL.getD j []).length = n := by
  have : ioL.getD j [] = ioL.get ⟨j, hj⟩ := by
    simp [List.getD_eq_getElem?_getD, List.getElem?_eq_getElem hj,
      List.get_eq_getElem]
  rw [this]
  exact hsamp _ (List.get_mem ioL j hj)

theorem rangeLoop_io_spec (cpuL : List (List ℚ)) (ioL virtL swapL : List (List ℤ))
    (a b : ℚ) :
    ∀ (ts : List ℚ) (i : Nat) (last : ℚ),
      List.Pairwise (· < ·) ts →
      i + ts.length ≤ cpuL.length → i + ts.length ≤ ioL.length →
      i + ts.length ≤ virtL.length → i + ts.length ≤ swapL.length →
      ∃ ws, rangeLoop cpuL ioL virtL swapL a b i last ts = .ok ws ∧
        ws.map (fun u => u.io) =
          (((List.range' i ts.length).zip ts).filter
            (fun p => decide (a ≤ p.2) && decide (p.2 ≤ b))).map
            (fun p => ioL.getD p.1 []) := by
  intro ts
  induction ts with
  | nil =>
    intro i last _ _ _ _ _
    exact ⟨[], rfl, by simp⟩
  | cons t rest ih =>
    intro i last hsort hbc hbio hbv hbs
    have hr : List.range' i (rest.length + 1) = i :: List.range' (i + 1) rest.length := rfl
    simp only [List.length_cons] at hbc hbio hbv hbs
    rw [rangeLoop, List.length_cons, hr, List.zip_cons_cons, List.filter_cons]
    by_cases h1 : t < a
    · rw [if_pos h1]
      obtain ⟨ws, hws, hmap⟩ := ih (i + 1) last hsort.of_cons
        (by omega) (by omega) (by omega) (by omega)
      refine ⟨ws, hws, ?_⟩
      rw [hmap, if_neg (by simp [not_le.mpr h1])]
    · rw [if_neg h1]
      by_cases h2 : b < t
      · rw [if_pos h2]
        refine ⟨[], rfl, ?_⟩
        rw [if_neg (by simp [not_le.mpr h2]), List.filter_eq_nil_iff.mpr, List.map_nil]
        · rfl
        · intro p hp
          have hmem := (List.of_mem_zip hp).2
          have hlt := (List.pairwise_cons.mp hsort).1 p.2 hmem
          simp only [Bool.and_eq_true, decide_eq_true_eq, not_and]
          intro _
          exact not_le.mpr (lt_trans h2 hlt)
      · rw [if_neg h2]
        have hgc := listGet_eq_getD cpuL i ([] : List ℚ) (by omega)
        have hgio := listGet_eq_getD ioL i ([] : List ℤ) (by omega)
        have hgv := listGet_eq_getD virtL i ([] : List ℤ) (by omega)
        have hgs := listGet_eq_getD swapL i ([] : List ℤ) (by omega)
        obtain ⟨ws, hws, hmap⟩ := ih (i + 1) t hsort.of_cons
          (by omega) (by omega) (by omega) (by omega)
        refine ⟨⟨last, t, cpuL.getD i [], ioL.getD i [], virtL.getD i [],
          swapL.getD i []⟩ :: ws, ?_, ?_⟩
        · simp [hgc, hgio, hgv, hgs, hws, Bind.bind, Except.bind]
        · rw [List.map_cons, hmap,
            if_pos (by simp [le_of_not_lt h1, le_of_not_lt h2]), List.map_cons]

/-- `range_usage` with both explicit bounds, on a well-formed stopped
monitor, is exactly the enumeration loop started at `last = time[0]`. -/
theorem range_usage_some_some (m : Monitor) (a b t : ℚ) (rest : List ℚ)
    (cpuL : List (List ℚ)) (ioL virtL swapL : List (List ℤ))
    (hst : m.stopped = true) (ht : m.time = some (t :: rest))
    (hc : m.cpu = some cpuL) (hio : m.io = some ioL)
    (hv : m.virt = some virtL) (hsw : m.swap = some swapL) :
    m.range_usage (some a) (some b) =
      rangeLoop cpuL ioL virtL swapL a b 0 t (t :: rest) := by
  simp [Monitor.range_usage, hst, ht, hc, hio, hv, hsw, getAttr, startDefault,
    stopDefault, listGet, Bind.bind, Except.bind]

/-- `aggregate_io(start, end)` on a well-formed stopped monitor with a
sorted Timeline: the result is the componentwise sum of the io samples
whose timestamps fall in the inclusive range `[a, b]`. -/
theorem aggregate_io_spec (m : Monitor) (ts : List ℚ) (cpuL : List (List ℚ))
    (ioL virtL swapL : List (List ℤ)) (n : Nat) (a b : ℚ)
    (hst : m.stopped = true) (ht : m.time = some ts)
    (hc : m.cpu = some cpuL) (hio : m.io = some ioL)
    (hv : m.virt = some virtL) (hsw : m.swap = some swapL)
    (hlen : m.io_len = some n)
    (hsort : List.Pairwise (· < ·) ts) (hne : ts ≠ [])
    (hlc : ts.length ≤ cpuL.length) (hli : ts.length ≤ ioL.length)
    (hlv : ts.length ≤ virtL.length) (hls : ts.length ≤ swapL.length)
    (hsamp : ∀ v ∈ ioL, v.length = n) :
    ∃ r : List ℤ, m.aggregate_io (some a) (some b) none = .ok r ∧
      r.length = n ∧
      ∀ k, r.getD k 0 =
        ((((List.range' 0 ts.length).zip ts).filter
          (fun p => decide (a ≤ p.2) && decide (p.2 ≤ b))).map
          (fun p => (ioL.getD p.1 []).getD k 0)).sum := by
  obtain ⟨t, rest, rfl⟩ : ∃ t rest, ts = t :: rest := by
    cases ts with
    | nil => exact absurd rfl hne
    | cons t rest => exact ⟨t, rest, rfl⟩
  obtain ⟨ws, hws, hmap⟩ := rangeLoop_io_spec cpuL ioL virtL swapL a b
    (t :: rest) 0 t hsort (by omega) (by omega) (by omega) (by omega)
  have hre : m.range_usage (some a) (some b) = .ok ws := by
    rw [range_usage_some_some m a b t rest cpuL ioL virtL swapL hst ht hc hio hv hsw,
      hws]
  have hio_len : ∀ u ∈ ws, u.io.length = n := by
    intro u hu
    have humem : u.io ∈ ws.map (fun u => u.io) := List.mem_map_of_mem _ hu
    rw [hmap] at humem
    obtain ⟨p, hp, hpe⟩ := List.mem_map.mp humem
    have hpz := List.mem_of_mem_filter hp
    have hpr := (List.of_mem_zip hpz).1
    have hplt : p.1 < (t :: rest).length := by
      have := List.mem_range'_1.mp hpr
      omega
    rw [← hpe]
    exact getD_mem_length ioL n hsamp p.1 (by omega)
  have hinit : ∀ u ∈ ws, u.io.length = (List.replicate n (0 : ℤ)).length := by
    intro u hu
    rw [List.length_replicate]
    exact hio_len u hu
  have hfold := foldlM_addInto ws (List.replicate n 0) hinit
  have hgA : getAttr m.io_len = .ok n := by rw [hlen]; rfl
  refine ⟨ws.foldl (fun a u => List.zipWith (fun x v => x + v) a u.io)
    (List.replicate n 0), ?_, ?_, ?_⟩
  · simp only [Monitor.aggregate_io, Bind.bind, Except.bind, hgA, hre, hfold]
  · rw [ioFold_length ws _ hinit, List.length_replicate]
  · intro k
    rw [ioFold_getD ws _ k hinit, replicate_zero_getD, zero_add]
    have hproj := congrArg (List.map (fun l : List ℤ => l.getD k 0)) hmap
    rw [List.map_map, List.map_map] at hproj
    rw [show (fun u : SystemResourceUsage => u.io.getD k 0) =
      ((fun l : List ℤ => l.getD k 0) ∘ fun u : SystemResourceUsage => u.io) from rfl,
      hproj]
    rfl

/-- C6 counterexample: on `mEx` (timestamps 1, 2, 3 with io samples
[4], [5], [6]) both range bounds are inclusive, so the sample at the
boundary `t1 = 2` is counted by both sub-ranges:
`aggregate_io(1,2) = [9]`, `aggregate_io(2,3) = [11]`, but
`aggregate_io(1,3) = [15] ≠ [9 + 11]`. -/
theorem aggregate_io_boundary_cex :
    mEx.aggregate_io (some 1) (some 2) none = .ok [9] ∧
    mEx.aggregate_io (some 2) (some 3) none = .ok [11] ∧
    mEx.aggregate_io (some 1) (some 3) none = .ok [15] ∧
    (9 + 11 : ℤ) ≠ 15 :=
  ⟨rfl, rfl, rfl, by decide⟩

/-- C6 amended: for a stopped monitor with a strictly increasing
Timeline and `t0 < t1 < t2` with `t1` the sample at index `j`, the
componentwise sum of `aggregate_io(t0,t1)` and `aggregate_io(t1,t2)`
equals `aggregate_io(t0,t2)` plus the io sample recorded at `t1`, which
is double-counted because both sub-ranges include their boundary
(`entry_time < start: continue` and `entry_time > end: break` keep both
endpoints). -/
theorem aggregate_io_boundary (m : Monitor) (ts : List ℚ) (cpuL : List (List ℚ))
    (ioL virtL swapL : List (List ℤ)) (n : Nat) (t0 t1 t2 : ℚ) (j : Nat)
    (hst : m.stopped = true) (ht : m.time = some ts)
    (hc : m.cpu = some cpuL) (hio : m.io = some ioL)
    (hv : m.virt = some virtL) (hsw : m.swap = some swapL)
    (hlen : m.io_len = some n)
    (hsort : List.Pairwise (· < ·) ts)
    (hlc : ts.length ≤ cpuL.length) (hli : ts.length ≤ ioL.length)
    (hlv : ts.length ≤ virtL.length) (hls : ts.length ≤ swapL.length)
    (hsamp : ∀ v ∈ ioL, v.length = n)
    (hj : j < ts.length) (ht1 : ts.get ⟨j, hj⟩ = t1)
    (h01 : t0 < t1) (h12 : t1 < t2) :
    ∃ r01 r12 r02 : List ℤ,
      m.aggregate_io (some t0) (some t1) none = .ok r01 ∧
      m.aggregate_io (some t1) (some t2) none = .ok r12 ∧
      m.aggregate_io (some t0) (some t2) none = .ok r02 ∧
      (ioL.getD j []).length = n ∧
      List.zipWith (fun x v => x + v) r01 r12 =
        List.zipWith (fun x v => x + v) r02 (ioL.getD j []) := by
  have hne : ts ≠ [] := by
    intro hnil
    rw [hnil] at hj
    simp at hj
  obtain ⟨r01, h01e, h01l, h01g⟩ := aggregate_io_spec m ts cpuL ioL virtL swapL
    n t0 t1 hst ht hc hio hv hsw hlen hsort hne hlc hli hlv hls hsamp
  obtain ⟨r12, h12e, h12l, h12g⟩ := aggregate_io_spec m ts cpuL ioL virtL swapL
    n t1 t2 hst ht hc hio hv hsw hlen hsort hne hlc hli hlv hls hsamp
  obtain ⟨r02, h02e, h02l, h02g⟩ := aggregate_io_spec m ts cpuL ioL virtL swapL
    n t0 t2 hst ht hc hio hv hsw hlen hsort hne hlc hli hlv hls hsamp
  have hsj : (ioL.getD j []).length = n := getD_mem_length ioL n hsamp j (by omega)
  refine ⟨r01, r12, r02, h01e, h12e, h02e, hsj, ?_⟩
  apply list_eq_of_getD
  · rw [List.length_zipWith, List.length_zipWith, h01l, h12l, h02l, hsj]
  · intro k
    rw [zipWith_add_getD r01 r12 k (by rw [h01l, h12l]),
      zipWith_add_getD r02 (ioL.getD j []) k (by rw [h02l, hsj]),
      h01g, h12g, h02g]
    have hsplit := sum_filter_split
      (fun p : Nat × ℚ => (ioL.getD p.1 []).getD k 0)
      (fun p => decide (t0 ≤ p.2) && decide (p.2 ≤ t1))
      (fun p => decide (t1 ≤ p.2) && decide (p.2 ≤ t2))
      (fun p => decide (t0 ≤ p.2) && decide (p.2 ≤ t2))
      (fun p => decide (p.2 = t1))
      (fun p => boundary_indicator t0 t1 t2 h01 h12 p.2 ((ioL.getD p.1 []).getD k 0))
      ((List.range' 0 ts.length).zip ts)
    rw [hsplit, zip_filter_singleton t1 ts 0 j hsort hj ht1]
    simp

/-- Closed instance of the amended C6 on `mEx` with the boundary at
`t1 = 2` (sample index 1). -/
theorem aggregate_io_boundary_witness :
    ∃ r01 r12 r02 : List ℤ,
      mEx.aggregate_io (some 1) (some 2) none = .ok r01 ∧
      mEx.aggregate_io (some 2) (some 3) none = .ok r12 ∧
      mEx.aggregate_io (some 1) (some 3) none = .ok r02 ∧
      (([[4], [5], [6]] : List (List ℤ)).getD 1 []).length = 1 ∧
      List.zipWith (fun x v => x + v) r01 r12 =
        List.zipWith (fun x v => x + v) r02
          (([[4], [5], [6]] : List (List ℤ)).getD 1 []) :=
  aggregate_io_boundary mEx [1, 2, 3] [[10], [20], [30]] [[4], [5], [6]]
    [[0], [0], [0]] [[0], [0], [0]] 1 1 2 3 1
    rfl rfl rfl rfl rfl rfl rfl (by decide) (by decide) (by decide) (by decide)
    (by decide) (by decide) (by decide) rfl (by decide) (by decide)

end ResourceMonitor
